import Mathlib

/-!
Verification of the quiz core of the device-support exam-prep web app:
the difficulty-weighted sampler (`pickWeighted`) and the client-side
session state machine (`submit`, `next`, `restartQuizKeepQuestions`,
`reshuffle`, `retryIncorrectOnly`) from `src/app/quiz/page.tsx`, plus the
mode-dependent feedback display policy.

Modelling conventions:
- `Math.random()` is modelled by an explicit stream of natural numbers;
  each call site of `shuffle` receives its own stream.  The JS draw
  `Math.floor(Math.random() * (i + 1))` (a value in `[0, i]`) is modelled
  as `g i % (i + 1)`.
- JS number arithmetic on the weight fractions (0.1, 0.3, 0.45, 0.5) is
  modelled exactly over the rationals: `Math.round(size * (k/100))` with
  round-half-up becomes `(size * k + 50) / 100` in natural-number
  division.
- React `useState` state is collected into one `Session` record; each
  event handler becomes a function `Session → Session`.  The external
  persistence calls (`persistAttempt`, `upsertDomainStats`) touch no
  session state and are out of scope per the spec.
-/

open scoped List

namespace Quiz

/-- Difficulty levels of a question (source: `type Difficulty`). -/
inductive Difficulty where
  | easy
  | medium
  | hard
deriving DecidableEq, Repr

/-- Session modes (source: `type Mode`). -/
inductive Mode where
  | balanced
  | exam
deriving DecidableEq, Repr

/-- Answer-choice letters (source: the `"A" | "B" | "C" | "D"` union). -/
inductive Choice where
  | A
  | B
  | C
  | D
deriving DecidableEq, Repr

/-- A quiz question (source: `type Question`). -/
structure Question where
  id : String
  domain : String
  difficulty : Difficulty
  mode : Mode
  question : String
  choices : List String
  correctIndex : Nat
  correctChoice : Choice
  explanation : String
deriving DecidableEq, Repr

/-- Source: `correctChoiceToIndex`. -/
def correctChoiceToIndex (c : Choice) : Nat :=
  match c with
  | Choice.A => 0
  | Choice.B => 1
  | Choice.C => 2
  | Choice.D => 3

/-- Source: `indexToChoice` (`i === 0 ? "A" : i === 1 ? "B" : i === 2 ? "C" : "D"`). -/
def indexToChoice (i : Nat) : Choice :=
  if i = 0 then Choice.A else if i = 1 then Choice.B else if i = 2 then Choice.C else Choice.D

/-- One step of the Fisher-Yates loop body:
`[a[i], a[j]] = [a[j], a[i]]`, a no-op when an index is out of range
(unreachable in the loop, but total here). -/
def listSwap {α : Type} (l : List α) (i j : Nat) : List α :=
  match l[i]?, l[j]? with
  | some a, some b => (l.set i b).set j a
  | some _, none => l
  | none, some _ => l
  | none, none => l

/-- The loop `for (let i = a.length - 1; i > 0; i--)` of `shuffle`,
counting the loop variable down from `i` to `1`.  `g` supplies the
random draw used at each loop index. -/
def fyAux {α : Type} (g : Nat → Nat) : Nat → List α → List α
  | 0, l => l
  | i + 1, l => fyAux g i (listSwap l (i + 1) (g (i + 1) % (i + 2)))

/-- Source: `shuffle` (Fisher-Yates over a copy of the array), with the
`Math.random()` draws supplied by the stream `g`. -/
def shuffle {α : Type} (g : Nat → Nat) (l : List α) : List α :=
  fyAux g (l.length - 1) l

/-- Replacing the element at position `k` by `x` and re-consing the old
element is a permutation of consing `x` itself. -/
theorem cons_get_set_perm {α : Type} :
    ∀ (xs : List α) (k : Nat) (h : k < xs.length) (x : α),
      (xs.get ⟨k, h⟩ :: xs.set k x).Perm (x :: xs)
  | y :: _, 0, _, _ => List.Perm.swap _ _ _
  | y :: ys, k + 1, h, x => by
    have hk : k < ys.length := Nat.lt_of_succ_lt_succ (by simpa using h)
    have ih := cons_get_set_perm ys k hk x
    calc (y :: ys).get ⟨k + 1, h⟩ :: (y :: ys).set (k + 1) x
        = ys.get ⟨k, hk⟩ :: y :: ys.set k x := by simp [List.get_cons_succ]
      _ ~ y :: (ys.get ⟨k, hk⟩ :: ys.set k x) := List.Perm.swap _ _ _
      _ ~ y :: (x :: ys) := ih.cons y
      _ ~ x :: y :: ys := List.Perm.swap _ _ _

/-- Swapping two in-range positions permutes the list. -/
theorem set_set_perm {α : Type} :
    ∀ (l : List α) (i j : Nat) (hi : i < l.length) (hj : j < l.length),
      ((l.set i (l.get ⟨j, hj⟩)).set j (l.get ⟨i, hi⟩)).Perm l
  | _ :: _, 0, 0, _, _ => by simp
  | x :: xs, 0, j + 1, hi, hj => by
    have hj' : j < xs.length := Nat.lt_of_succ_lt_succ (by simpa using hj)
    have : ((x :: xs).set 0 ((x :: xs).get ⟨j + 1, hj⟩)).set (j + 1) ((x :: xs).get ⟨0, hi⟩)
        = xs.get ⟨j, hj'⟩ :: xs.set j x := by simp [List.get_cons_succ]
    rw [this]
    exact cons_get_set_perm xs j hj' x
  | x :: xs, i + 1, 0, hi, hj => by
    have hi' : i < xs.length := Nat.lt_of_succ_lt_succ (by simpa using hi)
    have : ((x :: xs).set (i + 1) ((x :: xs).get ⟨0, hj⟩)).set 0 ((x :: xs).get ⟨i + 1, hi⟩)
        = xs.get ⟨i, hi'⟩ :: xs.set i x := by simp [List.get_cons_succ]
    rw [this]
    exact cons_get_set_perm xs i hi' x
  | x :: xs, i + 1, j + 1, hi, hj => by
    have hi' : i < xs.length := Nat.lt_of_succ_lt_succ (by simpa using hi)
    have hj' : j < xs.length := Nat.lt_of_succ_lt_succ (by simpa using hj)
    have : ((x :: xs).set (i + 1) ((x :: xs).get ⟨j + 1, hj⟩)).set (j + 1)
          ((x :: xs).get ⟨i + 1, hi⟩)
        = x :: ((xs.set i (xs.get ⟨j, hj'⟩)).set j (xs.get ⟨i, hi'⟩)) := by
      simp [List.get_cons_succ]
    rw [this]
    exact (set_set_perm xs i j hi' hj').cons x

/-- Lemma: `listSwap` always permutes the list. -/
theorem listSwap_perm {α : Type} (l : List α) (i j : Nat) : (listSwap l i j).Perm l := by
  unfold listSwap
  rcases h1 : l[i]? with _ | a <;> rcases h2 : l[j]? with _ | b <;> try exact List.Perm.refl l
  have hi : i < l.length := (List.getElem?_eq_some.mp h1).1
  have hj : j < l.length := (List.getElem?_eq_some.mp h2).1
  have ha : l.get ⟨i, hi⟩ = a := by
    have := (List.getElem?_eq_some.mp h1).2
    simpa [List.get_eq_getElem] using this
  have hb : l.get ⟨j, hj⟩ = b := by
    have := (List.getElem?_eq_some.mp h2).2
    simpa [List.get_eq_getElem] using this
  rw [← ha, ← hb]
  exact set_set_perm l i j hi hj

/-- The shuffle loop permutes the list. -/
theorem fyAux_perm {α : Type} (g : Nat → Nat) :
    ∀ (n : Nat) (l : List α), (fyAux g n l).Perm l
  | 0, l => List.Perm.refl l
  | n + 1, l =>
    (fyAux_perm g n (listSwap l (n + 1) (g (n + 1) % (n + 2)))).trans
      (listSwap_perm l (n + 1) (g (n + 1) % (n + 2)))

/-- Lemma: `shuffle` returns a permutation of its input, for every random stream. -/
theorem shuffle_perm {α : Type} (g : Nat → Nat) (l : List α) : (shuffle g l).Perm l :=
  fyAux_perm g (l.length - 1) l

/-- Lemma: `shuffle` preserves length. -/
theorem shuffle_length {α : Type} (g : Nat → Nat) (l : List α) :
    (shuffle g l).length = l.length :=
  (shuffle_perm g l).length_eq

/-- Independent random streams for the five `shuffle` call sites inside
`pickWeighted` (easy bucket, medium bucket, hard bucket, remainder pool,
final selection). -/
structure Rand where
  re : Nat → Nat
  rm : Nat → Nat
  rh : Nat → Nat
  rr : Nat → Nat
  rf : Nat → Nat

/-- Exact-rational model of `Math.round(size * (k / 100))` with JS
round-half-up semantics: `floor(size * k / 100 + 1/2)`. -/
def roundWeight (size k : Nat) : Nat :=
  (size * k + 50) / 100

/-- Model of `Math.round(size * weights.easy)` — easy weight is 0.10 in exam mode,
0.30 in balanced mode (source: `pickWeighted`, `weights` and `targetEasy`). -/
def targetEasy (size : Nat) (mode : Mode) : Nat :=
  match mode with
  | Mode.exam => roundWeight size 10
  | Mode.balanced => roundWeight size 30

/-- Model of `Math.round(size * weights.medium)` — medium weight is 0.45 in exam
mode, 0.50 in balanced mode (source: `pickWeighted`, `targetMed`). -/
def targetMed (size : Nat) (mode : Mode) : Nat :=
  match mode with
  | Mode.exam => roundWeight size 45
  | Mode.balanced => roundWeight size 50

/-- Model of `size - targetEasy - targetMed`: the hard target is the remainder
(source comment: "hard is remainder (avoids rounding drift)"). -/
def targetHard (size : Nat) (mode : Mode) : Nat :=
  size - targetEasy size mode - targetMed size mode

/-- The easy/medium targets never exceed `size`, for both weight
profiles, so the hard remainder never underflows. -/
theorem targets_le (size : Nat) (mode : Mode) :
    targetEasy size mode + targetMed size mode ≤ size := by
  cases mode <;> simp only [targetEasy, targetMed, roundWeight]
  · rcases Nat.lt_or_ge size 5 with h | h
    · interval_cases size <;> decide
    · have h1 : ((size * 30 + 50) / 100) * 100 ≤ size * 30 + 50 := Nat.div_mul_le_self _ _
      have h2 : ((size * 50 + 50) / 100) * 100 ≤ size * 50 + 50 := Nat.div_mul_le_self _ _
      omega
  · rcases Nat.lt_or_ge size 3 with h | h
    · interval_cases size <;> decide
    · have h1 : ((size * 10 + 50) / 100) * 100 ≤ size * 10 + 50 := Nat.div_mul_le_self _ _
      have h2 : ((size * 45 + 50) / 100) * 100 ≤ size * 45 + 50 := Nat.div_mul_le_self _ _
      omega

/-- Source: `pickWeighted`.  Partitions the pool into difficulty
buckets, shuffles each, takes `min(target, bucketLength)` from each,
fills any shortfall from the shuffled leftover pool, then shuffles the
assembled selection and truncates to `size`. -/
def pickWeighted (questions : List Question) (size : Nat) (mode : Mode) (rnd : Rand) :
    List Question :=
  let bucketEasy := shuffle rnd.re (questions.filter (fun q => q.difficulty = Difficulty.easy))
  let bucketMed := shuffle rnd.rm (questions.filter (fun q => q.difficulty = Difficulty.medium))
  let bucketHard := shuffle rnd.rh (questions.filter (fun q => q.difficulty = Difficulty.hard))
  let takeEasy := min (targetEasy size mode) bucketEasy.length
  let takeMed := min (targetMed size mode) bucketMed.length
  let takeHard := min (targetHard size mode) bucketHard.length
  let picked := bucketEasy.take takeEasy ++ bucketMed.take takeMed ++ bucketHard.take takeHard
  let picked2 :=
    if picked.length < size then
      let remainingPool := shuffle rnd.rr
        (bucketEasy.drop takeEasy ++ bucketMed.drop takeMed ++ bucketHard.drop takeHard)
      picked ++ remainingPool.take (size - picked.length)
    else picked
  (shuffle rnd.rf picked2).take size

/-- The `useState` variables of `QuizPage` that make up one quiz
session (questions, index, selectedIndex, submitted, correctCount,
answeredCount, incorrectIds, showReview, sessionId). -/
structure Session where
  questions : List Question
  index : Nat
  selectedIndex : Option Nat
  submitted : Bool
  correctCount : Nat
  answeredCount : Nat
  incorrectIds : List String
  showReview : Bool
  sessionId : String
deriving DecidableEq, Repr

/-- Source: `const q = useMemo(() => questions[index], ...)` — the
current question, `undefined` (here `none`) when out of range. -/
def currentQuestion (s : Session) : Option Question :=
  s.questions[s.index]?

/-- Source: the `submit` handler.  Guarded by
`if (!q || selectedIndex === null || submitted) return;`; marks
submitted, bumps the attempted count, compares the chosen letter with
the correct letter, tracks score or the incorrect-id set (deduplicated),
and enters review when the current question is the last.  The
`persistAttempt` / `upsertDomainStats` calls touch no session state. -/
def submit (s : Session) : Session :=
  match currentQuestion s, s.selectedIndex with
  | some q, some sel =>
    if s.submitted then s
    else
      let chosen := indexToChoice sel
      let correctBool := chosen = q.correctChoice
      let s1 := { s with submitted := true, answeredCount := s.answeredCount + 1 }
      let s2 :=
        if correctBool then { s1 with correctCount := s1.correctCount + 1 }
        else { s1 with incorrectIds :=
          if s1.incorrectIds.contains q.id then s1.incorrectIds
          else s1.incorrectIds ++ [q.id] }
      if s.index = s.questions.length - 1 then { s2 with showReview := true } else s2
  | some _, none => s
  | none, _ => s

/-- Source: the `next` handler.  No-op before submission; advances and
clears choice/submitted while questions remain, otherwise enters
review. -/
def next (s : Session) : Session :=
  if !s.submitted then s
  else if s.index < s.questions.length - 1 then
    { s with index := s.index + 1, selectedIndex := none, submitted := false }
  else
    { s with showReview := true }

/-- Source: `restartQuizKeepQuestions`.  Resets position, choice,
submission, both counts, the incorrect set and review, and mints a new
session id (supplied here by the environment). -/
def restartQuizKeepQuestions (s : Session) (newSess : String) : Session :=
  { s with
    index := 0
    selectedIndex := none
    submitted := false
    correctCount := 0
    answeredCount := 0
    incorrectIds := []
    showReview := false
    sessionId := newSess }

/-- Source: `reshuffle` — shuffles the loaded set then restarts. -/
def reshuffle (s : Session) (g : Nat → Nat) (newSess : String) : Session :=
  restartQuizKeepQuestions { s with questions := shuffle g s.questions } newSess

/-- Source: `retryIncorrectOnly`.  Narrows the question set to the ids
recorded as incorrect, shuffles it, and performs a full restart with a
new session id. -/
def retryIncorrectOnly (s : Session) (g : Nat → Nat) (newSess : String) : Session :=
  let filtered := s.questions.filter (fun qq => s.incorrectIds.contains qq.id)
  { s with
    questions := shuffle g filtered
    index := 0
    selectedIndex := none
    submitted := false
    correctCount := 0
    answeredCount := 0
    incorrectIds := []
    showReview := false
    sessionId := newSess }

/-- The retry-incorrect control as the user can actually invoke it: the
review-screen button carries `disabled={incorrectIds.length === 0}`, so
the `retryIncorrectOnly` handler only fires when the incorrect set is
nonempty (source: the review screen of `QuizPage`). -/
def retryIncorrectClick (s : Session) (g : Nat → Nat) (newSess : String) : Session :=
  if s.incorrectIds.length = 0 then s else retryIncorrectOnly s g newSess

/-- Source: `const isExamLock = mode === "exam"`. -/
def isExamLock (mode : Mode) : Bool :=
  mode = Mode.exam

/-- The "Correct" badge on one choice button:
`!isExamLock && submitted && showCorrect` where
`showCorrect = !isExamLock && submitted && isCorrectChoice`. -/
def showCorrectBadge (mode : Mode) (submitted isCorrectChoice : Bool) : Bool :=
  !isExamLock mode && submitted && isCorrectChoice

/-- The "Incorrect" badge on one choice button:
`showWrong = !isExamLock && submitted && isSelected && !isCorrect`. -/
def showWrongBadge (mode : Mode) (submitted isSelected isCorrect : Bool) : Bool :=
  !isExamLock mode && submitted && isSelected && !isCorrect

/-- The visual classes a choice button can end up with (abstracting the
`className` string built per choice in `QuizPage`). -/
inductive ChoiceStyle where
  | base
  | selectedRing
  | correctHighlight
  | wrongHighlight
  | dimmed70
  | dimmed80
deriving DecidableEq, Repr

/-- The per-choice style logic of `QuizPage`: ring before submission on
the selected choice; green/red highlights or dim after submission in
balanced mode; a uniform dim after submission in exam mode. -/
def choiceStyle (mode : Mode) (submitted isSelected isCorrectChoice isCorrect : Bool) :
    ChoiceStyle :=
  if !submitted then
    if isSelected then ChoiceStyle.selectedRing else ChoiceStyle.base
  else if !isExamLock mode then
    if showCorrectBadge mode submitted isCorrectChoice then ChoiceStyle.correctHighlight
    else if showWrongBadge mode submitted isSelected isCorrect then ChoiceStyle.wrongHighlight
    else ChoiceStyle.dimmed70
  else ChoiceStyle.dimmed80

/-- The explanation panel is rendered iff `submitted && !isExamLock`
(source: the "Explanation (hidden in Exam mode until review)" block). -/
def explanationShown (mode : Mode) (submitted : Bool) : Bool :=
  submitted && !isExamLock mode

/-- Source: the review screen computes
`missed = questions.filter((qq) => incorrectIds.includes(qq.id))`. -/
def reviewMissed (s : Session) : List Question :=
  s.questions.filter (fun qq => s.incorrectIds.contains qq.id)

/-- What the review screen shows for one missed question: the correct
letter (`indexToChoice(m.correctIndex)`), the correct choice text
(`m.choices[m.correctIndex]`) and the explanation (`m.explanation`). -/
def reviewLine (m : Question) : Choice × String × String :=
  (indexToChoice m.correctIndex, m.choices.getD m.correctIndex "", m.explanation)

/-- The list of review entries rendered on the terminal review screen. -/
def reviewScreen (s : Session) : List (Choice × String × String) :=
  (reviewMissed s).map reviewLine

/-! Helper lemmas about the sampler. -/

/-- Exchanging the middle two blocks of a four-block append is a
permutation. -/
theorem append_exchange {α : Type} (a₁ a₂ b₁ b₂ : List α) :
    ((a₁ ++ a₂) ++ (b₁ ++ b₂)).Perm ((a₁ ++ b₁) ++ (a₂ ++ b₂)) := by
  calc (a₁ ++ a₂) ++ (b₁ ++ b₂) = a₁ ++ (a₂ ++ (b₁ ++ b₂)) := by simp [List.append_assoc]
    _ ~ a₁ ++ (b₁ ++ (a₂ ++ b₂)) := List.Perm.append_left _ (List.perm_append_comm_assoc _ _ _)
    _ = (a₁ ++ b₁) ++ (a₂ ++ b₂) := by simp [List.append_assoc]

/-- The taken prefixes of three lists followed by their dropped
suffixes permute the three lists. -/
theorem take3_drop3_perm {α : Type} (a b c : Nat) (l₁ l₂ l₃ : List α) :
    ((l₁.take a ++ l₂.take b ++ l₃.take c) ++ (l₁.drop a ++ l₂.drop b ++ l₃.drop c)).Perm
      (l₁ ++ l₂ ++ l₃) := by
  calc (l₁.take a ++ l₂.take b ++ l₃.take c) ++ (l₁.drop a ++ l₂.drop b ++ l₃.drop c)
      = (l₁.take a ++ (l₂.take b ++ l₃.take c)) ++ (l₁.drop a ++ (l₂.drop b ++ l₃.drop c)) := by
        simp [List.append_assoc]
    _ ~ (l₁.take a ++ l₁.drop a) ++ ((l₂.take b ++ l₃.take c) ++ (l₂.drop b ++ l₃.drop c)) :=
        append_exchange _ _ _ _
    _ ~ (l₁.take a ++ l₁.drop a) ++ ((l₂.take b ++ l₂.drop b) ++ (l₃.take c ++ l₃.drop c)) :=
        List.Perm.append_left _ (append_exchange _ _ _ _)
    _ = l₁ ++ (l₂ ++ l₃) := by simp [List.take_append_drop]
    _ = l₁ ++ l₂ ++ l₃ := by simp [List.append_assoc]

/-- The three difficulty buckets partition the pool: their
concatenation permutes it. -/
theorem filter_difficulty_perm (l : List Question) :
    ((l.filter fun q => q.difficulty = Difficulty.easy) ++
     (l.filter fun q => q.difficulty = Difficulty.medium) ++
     (l.filter fun q => q.difficulty = Difficulty.hard)).Perm l := by
  induction l with
  | nil => simp
  | cons x xs ih =>
    cases hx : x.difficulty with
    | easy =>
      simp only [List.filter_cons, hx]
      simpa using ih.cons x
    | medium =>
      simp [List.filter_cons, hx, - List.append_assoc]
      exact (List.perm_middle.append_right _).trans (ih.cons x)
    | hard =>
      simp [List.filter_cons, hx, - List.append_assoc]
      exact List.perm_middle.trans (ih.cons x)

/-- Every selection of `pickWeighted` is, up to order, a duplicate-free
sub-collection of the pool. -/
theorem pickWeighted_subperm (pool : List Question) (size : Nat) (mode : Mode) (rnd : Rand) :
    (pickWeighted pool size mode rnd).Subperm pool := by
  simp only [pickWeighted]
  set bE := shuffle rnd.re (pool.filter fun q => q.difficulty = Difficulty.easy) with hbE
  set bM := shuffle rnd.rm (pool.filter fun q => q.difficulty = Difficulty.medium) with hbM
  set bH := shuffle rnd.rh (pool.filter fun q => q.difficulty = Difficulty.hard) with hbH
  set tE := min (targetEasy size mode) bE.length with htE
  set tM := min (targetMed size mode) bM.length with htM
  set tH := min (targetHard size mode) bH.length with htH
  set picked := bE.take tE ++ bM.take tM ++ bH.take tH with hpicked
  have hb_pool : (bE ++ bM ++ bH).Perm pool := by
    refine List.Perm.trans ?_ (filter_difficulty_perm pool)
    exact ((shuffle_perm _ _).append (shuffle_perm _ _)).append (shuffle_perm _ _)
  have hfull : (picked ++ (bE.drop tE ++ bM.drop tM ++ bH.drop tH)).Perm pool :=
    (take3_drop3_perm tE tM tH bE bM bH).trans hb_pool
  have h1 : ∀ picked2 : List Question, picked2.Subperm pool →
      ((shuffle rnd.rf picked2).take size).Subperm pool := by
    intro picked2 h
    exact ((List.take_sublist _ _).subperm.trans (shuffle_perm _ _).subperm).trans h
  split
  · refine h1 _ ?_
    refine List.Subperm.trans ?_ hfull.subperm
    refine List.Subperm.trans
      (List.Sublist.subperm ((List.take_sublist _ _).append_left picked)) ?_
    exact (List.Perm.append_left picked (shuffle_perm _ _)).subperm
  · refine h1 _ ?_
    exact (List.sublist_append_left _ _).subperm.trans hfull.subperm

/-- The selection always has length `min size |pool|`. -/
theorem pickWeighted_length (pool : List Question) (size : Nat) (mode : Mode) (rnd : Rand) :
    (pickWeighted pool size mode rnd).length = min size pool.length := by
  simp only [pickWeighted]
  set fE := pool.filter (fun q => q.difficulty = Difficulty.easy) with hfE
  set fM := pool.filter (fun q => q.difficulty = Difficulty.medium) with hfM
  set fH := pool.filter (fun q => q.difficulty = Difficulty.hard) with hfH
  set bE := shuffle rnd.re fE with hbE
  set bM := shuffle rnd.rm fM with hbM
  set bH := shuffle rnd.rh fH with hbH
  have hlE : bE.length = fE.length := shuffle_length _ _
  have hlM : bM.length = fM.length := shuffle_length _ _
  have hlH : bH.length = fH.length := shuffle_length _ _
  have hpool : fE.length + fM.length + fH.length = pool.length := by
    have h := (filter_difficulty_perm pool).length_eq
    simp only [List.length_append, ← hfE, ← hfM, ← hfH] at h
    omega
  have hts : targetEasy size mode + targetMed size mode ≤ size := targets_le size mode
  have htH : targetHard size mode = size - targetEasy size mode - targetMed size mode := rfl
  set tE := min (targetEasy size mode) bE.length with htEd
  set tM := min (targetMed size mode) bM.length with htMd
  set tH := min (targetHard size mode) bH.length with htHd
  split
  · rename_i hlt
    simp only [List.length_take, shuffle_length, List.length_append, List.length_drop] at hlt ⊢
    omega
  · rename_i hge
    simp only [List.length_take, shuffle_length, List.length_append, List.length_drop] at hge ⊢
    omega

/-- Counting a property that holds everywhere on a list counts the
whole taken prefix. -/
theorem countP_take_of_forall {α : Type} (p : α → Bool) (l : List α) (n : Nat)
    (h : ∀ a ∈ l, p a = true) (hn : n ≤ l.length) : (l.take n).countP p = n := by
  rw [List.countP_eq_length.mpr fun a ha => h a (List.mem_of_mem_take ha)]
  simp only [List.length_take]
  omega

/-- Counting a property that fails everywhere gives zero on any taken
prefix. -/
theorem countP_take_of_none {α : Type} (p : α → Bool) (l : List α) (n : Nat)
    (h : ∀ a ∈ l, ¬ p a = true) : (l.take n).countP p = 0 :=
  List.countP_eq_zero.mpr fun a ha => h a (List.mem_of_mem_take ha)

/-- When every difficulty bucket covers its target, the selection holds
exactly the target number of questions of each difficulty. -/
theorem pickWeighted_counts (pool : List Question) (size : Nat) (mode : Mode) (rnd : Rand)
    (hE : targetEasy size mode ≤ (pool.filter fun q => q.difficulty = Difficulty.easy).length)
    (hM : targetMed size mode ≤ (pool.filter fun q => q.difficulty = Difficulty.medium).length)
    (hH : targetHard size mode ≤ (pool.filter fun q => q.difficulty = Difficulty.hard).length) :
    ((pickWeighted pool size mode rnd).countP fun q => q.difficulty = Difficulty.easy)
        = targetEasy size mode ∧
    ((pickWeighted pool size mode rnd).countP fun q => q.difficulty = Difficulty.medium)
        = targetMed size mode ∧
    ((pickWeighted pool size mode rnd).countP fun q => q.difficulty = Difficulty.hard)
        = targetHard size mode := by
  simp only [pickWeighted]
  set fE := pool.filter (fun q => q.difficulty = Difficulty.easy) with hfE
  set fM := pool.filter (fun q => q.difficulty = Difficulty.medium) with hfM
  set fH := pool.filter (fun q => q.difficulty = Difficulty.hard) with hfH
  set bE := shuffle rnd.re fE with hbE
  set bM := shuffle rnd.rm fM with hbM
  set bH := shuffle rnd.rh fH with hbH
  have hlE : bE.length = fE.length := shuffle_length _ _
  have hlM : bM.length = fM.length := shuffle_length _ _
  have hlH : bH.length = fH.length := shuffle_length _ _
  have hts : targetEasy size mode + targetMed size mode ≤ size := targets_le size mode
  have htH : targetHard size mode = size - targetEasy size mode - targetMed size mode := rfl
  have htE' : min (targetEasy size mode) bE.length = targetEasy size mode := by omega
  have htM' : min (targetMed size mode) bM.length = targetMed size mode := by omega
  have htH' : min (targetHard size mode) bH.length = targetHard size mode := by omega
  rw [htE', htM', htH']
  set picked := bE.take (targetEasy size mode) ++ bM.take (targetMed size mode) ++
    bH.take (targetHard size mode) with hpicked
  have hplen : picked.length = size := by
    simp only [hpicked, List.length_append, List.length_take]
    omega
  have hnot : ¬ picked.length < size := by omega
  rw [if_neg hnot]
  have htake : (shuffle rnd.rf picked).take size = shuffle rnd.rf picked :=
    List.take_of_length_le (by rw [shuffle_length, hplen])
  rw [htake]
  have hmE : ∀ a ∈ bE, a.difficulty = Difficulty.easy := by
    intro a ha
    have hmem : a ∈ fE := (shuffle_perm rnd.re fE).mem_iff.mp ha
    rw [hfE, List.mem_filter] at hmem
    exact of_decide_eq_true hmem.2
  have hmM : ∀ a ∈ bM, a.difficulty = Difficulty.medium := by
    intro a ha
    have hmem : a ∈ fM := (shuffle_perm rnd.rm fM).mem_iff.mp ha
    rw [hfM, List.mem_filter] at hmem
    exact of_decide_eq_true hmem.2
  have hmH : ∀ a ∈ bH, a.difficulty = Difficulty.hard := by
    intro a ha
    have hmem : a ∈ fH := (shuffle_perm rnd.rh fH).mem_iff.mp ha
    rw [hfH, List.mem_filter] at hmem
    exact of_decide_eq_true hmem.2
  refine ⟨?_, ?_, ?_⟩ <;>
    rw [(shuffle_perm rnd.rf picked).countP_eq, hpicked] <;>
    simp only [List.countP_append]
  · rw [countP_take_of_forall _ bE _ (fun a ha => by simp [hmE a ha]) (by omega),
      countP_take_of_none _ bM _ (fun a ha => by simp [hmM a ha]),
      countP_take_of_none _ bH _ (fun a ha => by simp [hmH a ha])]
    omega
  · rw [countP_take_of_none _ bE _ (fun a ha => by simp [hmE a ha]),
      countP_take_of_forall _ bM _ (fun a ha => by simp [hmM a ha]) (by omega),
      countP_take_of_none _ bH _ (fun a ha => by simp [hmH a ha])]
    omega
  · rw [countP_take_of_none _ bE _ (fun a ha => by simp [hmE a ha]),
      countP_take_of_none _ bM _ (fun a ha => by simp [hmM a ha]),
      countP_take_of_forall _ bH _ (fun a ha => by simp [hmH a ha]) (by omega)]
    omega

/-- Balanced size-10 selection from a pool with exactly one hard
question and at least ten easy and ten medium: the remainder fallback
fills up to 10 while the lone hard question is selected. -/
theorem pickWeighted_one_hard (pool : List Question) (rnd : Rand) (q : Question)
    (hH1 : (pool.filter fun x => x.difficulty = Difficulty.hard) = [q])
    (hE : 10 ≤ (pool.filter fun x => x.difficulty = Difficulty.easy).length)
    (hM : 10 ≤ (pool.filter fun x => x.difficulty = Difficulty.medium).length) :
    (pickWeighted pool 10 Mode.balanced rnd).length = 10 ∧
    q ∈ pickWeighted pool 10 Mode.balanced rnd ∧
    ((pickWeighted pool 10 Mode.balanced rnd).countP fun x => x.difficulty = Difficulty.hard)
      = 1 := by
  have hlen : (pickWeighted pool 10 Mode.balanced rnd).length = 10 := by
    rw [pickWeighted_length]
    have hpool : (pool.filter fun x => x.difficulty = Difficulty.easy).length +
        (pool.filter fun x => x.difficulty = Difficulty.medium).length +
        (pool.filter fun x => x.difficulty = Difficulty.hard).length = pool.length := by
      have h := (filter_difficulty_perm pool).length_eq
      simp only [List.length_append] at h
      omega
    rw [hH1] at hpool
    simp only [List.length_singleton] at hpool
    omega
  refine ⟨hlen, ?_⟩
  simp only [pickWeighted]
  set fE := pool.filter (fun x => x.difficulty = Difficulty.easy) with hfE
  set fM := pool.filter (fun x => x.difficulty = Difficulty.medium) with hfM
  set fH := pool.filter (fun x => x.difficulty = Difficulty.hard) with hfH
  set bE := shuffle rnd.re fE with hbE
  set bM := shuffle rnd.rm fM with hbM
  have hbH1 : shuffle rnd.rh fH = [q] := by rw [hH1]; rfl
  rw [hbH1]
  have hlE : bE.length = fE.length := shuffle_length _ _
  have hlM : bM.length = fM.length := shuffle_length _ _
  have t1 : targetEasy 10 Mode.balanced = 3 := by decide
  have t2 : targetMed 10 Mode.balanced = 5 := by decide
  have t3 : targetHard 10 Mode.balanced = 2 := by decide
  rw [t1, t2, t3]
  have m1 : min 3 bE.length = 3 := by omega
  have m2 : min 5 bM.length = 5 := by omega
  have m3 : min 2 ([q] : List Question).length = 1 := rfl
  rw [m1, m2, m3]
  have htq : ([q] : List Question).take 1 = [q] := rfl
  have hdq : ([q] : List Question).drop 1 = [] := rfl
  rw [htq, hdq]
  set picked := bE.take 3 ++ bM.take 5 ++ [q] with hpicked
  have hplen : picked.length = 9 := by
    simp only [hpicked, List.length_append, List.length_take, List.length_singleton]
    omega
  have hlt : picked.length < 10 := by omega
  rw [if_pos hlt]
  set rest := bE.drop 3 ++ bM.drop 5 ++ ([] : List Question) with hrest
  have hrestlen : 1 ≤ rest.length := by
    simp only [hrest, List.length_append, List.length_drop, List.length_nil]
    omega
  set picked2 := picked ++ (shuffle rnd.rr rest).take (10 - picked.length) with hpicked2
  have hp2len : picked2.length = 10 := by
    simp only [hpicked2, List.length_append, List.length_take, shuffle_length]
    omega
  have htake : (shuffle rnd.rf picked2).take 10 = shuffle rnd.rf picked2 :=
    List.take_of_length_le (by rw [shuffle_length, hp2len])
  rw [htake]
  have hmE : ∀ a ∈ bE, a.difficulty = Difficulty.easy := by
    intro a ha
    have hmem : a ∈ fE := (shuffle_perm rnd.re fE).mem_iff.mp ha
    rw [hfE, List.mem_filter] at hmem
    exact of_decide_eq_true hmem.2
  have hmM : ∀ a ∈ bM, a.difficulty = Difficulty.medium := by
    intro a ha
    have hmem : a ∈ fM := (shuffle_perm rnd.rm fM).mem_iff.mp ha
    rw [hfM, List.mem_filter] at hmem
    exact of_decide_eq_true hmem.2
  have hq : q.difficulty = Difficulty.hard := by
    have hmem : q ∈ fH := by rw [hH1]; exact List.mem_singleton_self q
    rw [hfH, List.mem_filter] at hmem
    exact of_decide_eq_true hmem.2
  constructor
  · rw [(shuffle_perm rnd.rf picked2).mem_iff]
    rw [hpicked2, hpicked]
    simp
  · rw [(shuffle_perm rnd.rf picked2).countP_eq, hpicked2, hpicked]
    simp only [List.countP_append]
    rw [countP_take_of_none _ bE _ (fun a ha => by simp [hmE a ha]),
      countP_take_of_none _ bM _ (fun a ha => by simp [hmM a ha]),
      countP_take_of_none _ (shuffle rnd.rr rest) _ ?_]
    · simp [List.countP_cons, hq]
    · intro a ha
      have hmem : a ∈ rest := (shuffle_perm rnd.rr rest).mem_iff.mp ha
      rw [hrest] at hmem
      simp only [List.append_nil, List.mem_append] at hmem
      rcases hmem with h | h
      · simp [hmE a (List.mem_of_mem_drop h)]
      · simp [hmM a (List.mem_of_mem_drop h)]

/-! Concrete material used by the witnesses. -/

/-- The all-zero random streams: a concrete instance of the
environment-supplied randomness. -/
def zeroRand : Rand :=
  { re := fun _ => 0, rm := fun _ => 0, rh := fun _ => 0, rr := fun _ => 0, rf := fun _ => 0 }

/-- A concrete question with the given id and difficulty. -/
def mkQ (i : String) (d : Difficulty) : Question :=
  { id := i
    domain := "networking"
    difficulty := d
    mode := Mode.balanced
    question := "sample"
    choices := ["w", "x", "y", "z"]
    correctIndex := 0
    correctChoice := Choice.A
    explanation := "because" }

/-- A 3 easy + 3 medium + 3 hard pool. -/
def pool9 : List Question :=
  [mkQ "e1" Difficulty.easy, mkQ "e2" Difficulty.easy, mkQ "e3" Difficulty.easy,
   mkQ "m1" Difficulty.medium, mkQ "m2" Difficulty.medium, mkQ "m3" Difficulty.medium,
   mkQ "h1" Difficulty.hard, mkQ "h2" Difficulty.hard, mkQ "h3" Difficulty.hard]

/-- A pool with ten easy, ten medium and exactly one hard question. -/
def poolShortfall : List Question :=
  ((List.range 10).map fun n => mkQ (String.append "e" (toString n)) Difficulty.easy) ++
  ((List.range 10).map fun n => mkQ (String.append "m" (toString n)) Difficulty.medium) ++
  [mkQ "h0" Difficulty.hard]

/-! The claims. -/

/-- C1: for every pool, every requested size, both modes and every
randomness, the sampler returns a selection of length exactly
`min size |pool|`; an empty pool yields an empty result, and a size at
least the pool size returns the whole pool up to order (shuffled). -/
theorem selection_length_spec (pool : List Question) (size : Nat) (mode : Mode) (rnd : Rand) :
    (pickWeighted pool size mode rnd).length = min size pool.length ∧
    (pool = [] → pickWeighted pool size mode rnd = []) ∧
    (pool.length ≤ size → (pickWeighted pool size mode rnd).Perm pool) := by
  refine ⟨pickWeighted_length pool size mode rnd, ?_, ?_⟩
  · intro h
    subst h
    have hl := pickWeighted_length [] size mode rnd
    simp only [List.length_nil, Nat.min_zero] at hl
    exact List.eq_nil_of_length_eq_zero hl
  · intro h
    refine (pickWeighted_subperm pool size mode rnd).perm_of_length_le ?_
    rw [pickWeighted_length]
    omega

/-- Witness for C1 at the empty pool and size 1. -/
theorem selection_length_spec_witness :
    (pickWeighted [] 1 Mode.balanced zeroRand).length = min 1 ([] : List Question).length ∧
    pickWeighted [] 1 Mode.balanced zeroRand = [] ∧
    (pickWeighted [] 1 Mode.balanced zeroRand).Perm [] :=
  ⟨(selection_length_spec [] 1 Mode.balanced zeroRand).1,
   (selection_length_spec [] 1 Mode.balanced zeroRand).2.1 rfl,
   (selection_length_spec [] 1 Mode.balanced zeroRand).2.2 (by decide)⟩

/-- C6: over a pool with pairwise-distinct identifiers the selection
has no duplicate identifiers, and every selected item comes from the
pool. -/
theorem selection_nodup_spec (pool : List Question) (size : Nat) (mode : Mode) (rnd : Rand)
    (hnd : (pool.map Question.id).Nodup) :
    ((pickWeighted pool size mode rnd).map Question.id).Nodup ∧
    ∀ q ∈ pickWeighted pool size mode rnd, q ∈ pool := by
  have hsub := pickWeighted_subperm pool size mode rnd
  constructor
  · rcases hsub with ⟨l, hperm, hsubl⟩
    have h1 : (l.map Question.id).Nodup := (hsubl.map Question.id).nodup hnd
    exact ((hperm.map Question.id).nodup_iff).mp h1
  · intro q hq
    exact hsub.subset hq

/-- Witness for C6 on the nine-question pool. -/
theorem selection_nodup_spec_witness :
    (pool9.map Question.id).Nodup ∧
    ((pickWeighted pool9 4 Mode.exam zeroRand).map Question.id).Nodup ∧
    ∀ q ∈ pickWeighted pool9 4 Mode.exam zeroRand, q ∈ pool9 :=
  ⟨by decide,
   (selection_nodup_spec pool9 4 Mode.exam zeroRand (by decide)).1,
   (selection_nodup_spec pool9 4 Mode.exam zeroRand (by decide)).2⟩

/-- C3: whenever each difficulty bucket covers its target, the
selection holds exactly the target count of each difficulty; the
numeric targets are 10/45/45 for size 100 in exam mode and 2/3/0 for
size 5 in balanced mode. -/
theorem selection_counts_spec (pool : List Question) (size : Nat) (mode : Mode) (rnd : Rand)
    (hE : targetEasy size mode ≤ (pool.filter fun q => q.difficulty = Difficulty.easy).length)
    (hM : targetMed size mode ≤ (pool.filter fun q => q.difficulty = Difficulty.medium).length)
    (hH : targetHard size mode ≤ (pool.filter fun q => q.difficulty = Difficulty.hard).length) :
    (((pickWeighted pool size mode rnd).countP fun q => q.difficulty = Difficulty.easy)
        = targetEasy size mode ∧
     ((pickWeighted pool size mode rnd).countP fun q => q.difficulty = Difficulty.medium)
        = targetMed size mode ∧
     ((pickWeighted pool size mode rnd).countP fun q => q.difficulty = Difficulty.hard)
        = targetHard size mode) ∧
    (targetEasy 100 Mode.exam = 10 ∧ targetMed 100 Mode.exam = 45 ∧
     targetHard 100 Mode.exam = 45) ∧
    (targetEasy 5 Mode.balanced = 2 ∧ targetMed 5 Mode.balanced = 3 ∧
     targetHard 5 Mode.balanced = 0) :=
  ⟨pickWeighted_counts pool size mode rnd hE hM hH, by decide, by decide⟩

/-- Witness for C3: the 3+3+3 pool at size 5 in balanced mode gives
exactly 2 easy, 3 medium, 0 hard. -/
theorem selection_counts_spec_witness :
    ((pickWeighted pool9 5 Mode.balanced zeroRand).countP
        fun q => q.difficulty = Difficulty.easy) = 2 ∧
    ((pickWeighted pool9 5 Mode.balanced zeroRand).countP
        fun q => q.difficulty = Difficulty.medium) = 3 ∧
    ((pickWeighted pool9 5 Mode.balanced zeroRand).countP
        fun q => q.difficulty = Difficulty.hard) = 0 := by
  have h := (selection_counts_spec pool9 5 Mode.balanced zeroRand
    (by decide) (by decide) (by decide)).1
  exact ⟨h.1.trans (by decide), h.2.1.trans (by decide), h.2.2.trans (by decide)⟩

/-- C7: balanced mode at size 10 over a pool holding exactly one hard
question and at least ten easy and ten medium questions still returns
ten questions (the pooled-remainder fallback fires) including exactly
that one hard question. -/
theorem selection_shortfall_spec (pool : List Question) (rnd : Rand) (q : Question)
    (hH1 : (pool.filter fun x => x.difficulty = Difficulty.hard) = [q])
    (hE : 10 ≤ (pool.filter fun x => x.difficulty = Difficulty.easy).length)
    (hM : 10 ≤ (pool.filter fun x => x.difficulty = Difficulty.medium).length) :
    (pickWeighted pool 10 Mode.balanced rnd).length = 10 ∧
    q ∈ pickWeighted pool 10 Mode.balanced rnd ∧
    ((pickWeighted pool 10 Mode.balanced rnd).countP fun x => x.difficulty = Difficulty.hard)
      = 1 :=
  pickWeighted_one_hard pool rnd q hH1 hE hM

/-- Witness for C7 on the 10 easy + 10 medium + 1 hard pool. -/
theorem selection_shortfall_spec_witness :
    (pickWeighted poolShortfall 10 Mode.balanced zeroRand).length = 10 ∧
    mkQ "h0" Difficulty.hard ∈ pickWeighted poolShortfall 10 Mode.balanced zeroRand ∧
    ((pickWeighted poolShortfall 10 Mode.balanced zeroRand).countP
        fun x => x.difficulty = Difficulty.hard) = 1 :=
  selection_shortfall_spec poolShortfall zeroRand (mkQ "h0" Difficulty.hard)
    (by decide) (by decide) (by decide)

/-- C10: for both weight profiles and every size, the rounded easy and
medium targets never exceed the size, the hard target is their exact
remainder, the three targets sum to the size, and each per-bucket take
count is bounded by the bucket length. -/
theorem targets_wellformed_spec (size : Nat) (mode : Mode) :
    targetEasy size mode + targetMed size mode ≤ size ∧
    targetHard size mode = size - targetEasy size mode - targetMed size mode ∧
    targetEasy size mode + targetMed size mode + targetHard size mode = size ∧
    ∀ bucketLen : Nat, min (targetHard size mode) bucketLen ≤ bucketLen := by
  have h := targets_le size mode
  have htH : targetHard size mode = size - targetEasy size mode - targetMed size mode := rfl
  exact ⟨h, htH, by omega, fun b => Nat.min_le_right _ _⟩

/-- Lemma: `List.contains` on identifier lists agrees with membership. -/
theorem contains_iff_mem (l : List String) (a : String) : l.contains a = true ↔ a ∈ l := by
  constructor
  · intro h
    have he : List.elem a l = decide (a ∈ l) := List.elem_eq_mem a l
    exact of_decide_eq_true (he ▸ h)
  · intro h
    have he : List.elem a l = decide (a ∈ l) := List.elem_eq_mem a l
    show List.elem a l = true
    rw [he]
    exact decide_eq_true h

/-- Any session already marked submitted is left unchanged by
`submit`. -/
theorem submit_of_submitted (s : Session) (h : s.submitted = true) : submit s = s := by
  unfold submit
  rcases hq : currentQuestion s with _ | q <;> rcases hsel : s.selectedIndex with _ | sel <;>
    simp [h]

/-- Lemma: `submit` either does nothing or leaves the session marked
submitted. -/
theorem submit_cases (s : Session) : submit s = s ∨ (submit s).submitted = true := by
  unfold submit
  rcases hq : currentQuestion s with _ | q <;> rcases hsel : s.selectedIndex with _ | sel <;>
    simp only []
  · exact Or.inl trivial
  · exact Or.inl trivial
  · exact Or.inl trivial
  · cases hsub : s.submitted
    · right
      simp only [Bool.false_eq_true, if_false]
      split <;> split <;> simp
    · exact Or.inl (by simp)

/-- C2: submit fires only with a choice selected and not yet submitted
(otherwise, and on repeat, it is a no-op); firing marks the question
submitted, bumps attempted by one, bumps correct by one exactly when
the chosen letter matches the correct letter, otherwise records the
question id in the incorrect set exactly once without duplication, and
enters review exactly when the current question is the last. -/
theorem submit_spec (s : Session) :
    (s.submitted = true → submit s = s) ∧
    (s.selectedIndex = none → submit s = s) ∧
    (currentQuestion s = none → submit s = s) ∧
    submit (submit s) = submit s ∧
    (∀ q sel, currentQuestion s = some q → s.selectedIndex = some sel →
      s.submitted = false →
      (submit s).submitted = true ∧
      (submit s).answeredCount = s.answeredCount + 1 ∧
      (indexToChoice sel = q.correctChoice →
        (submit s).correctCount = s.correctCount + 1 ∧
        (submit s).incorrectIds = s.incorrectIds) ∧
      (indexToChoice sel ≠ q.correctChoice →
        (submit s).correctCount = s.correctCount ∧
        q.id ∈ (submit s).incorrectIds ∧
        (submit s).incorrectIds.count q.id = max (s.incorrectIds.count q.id) 1) ∧
      (s.index = s.questions.length - 1 → (submit s).showReview = true) ∧
      (s.index ≠ s.questions.length - 1 → (submit s).showReview = s.showReview)) := by
  refine ⟨submit_of_submitted s, ?_, ?_, ?_, ?_⟩
  · intro h
    unfold submit
    rcases hq : currentQuestion s with _ | q <;> simp [h]
  · intro h
    unfold submit
    rw [h]
  · rcases submit_cases s with h | h
    · rw [h, h]
    · exact submit_of_submitted _ h
  · intro q sel hq hsel hsub
    unfold submit
    rw [hq, hsel, hsub]
    simp only [Bool.false_eq_true, if_false]
    have hcontains : s.incorrectIds.contains q.id = decide (q.id ∈ s.incorrectIds) :=
      List.elem_eq_mem q.id s.incorrectIds
    refine ⟨?_, ?_, ?_, ?_, ?_, ?_⟩
    · split <;> split <;> simp
    · split <;> split <;> simp
    · intro hc
      rw [if_pos hc]
      split <;> simp
    · intro hc
      rw [if_neg hc]
      rcases hmem : decide (q.id ∈ s.incorrectIds) with _ | _
      · have hnotmem : q.id ∉ s.incorrectIds := of_decide_eq_false hmem
        rw [hcontains, hmem]
        have hcount : s.incorrectIds.count q.id = 0 := List.count_eq_zero.mpr hnotmem
        split <;>
          simp [List.count_append, hcount, List.count_singleton_self, hcount,
            List.mem_append]
      · have hmem' : q.id ∈ s.incorrectIds := of_decide_eq_true hmem
        have hcount : 0 < s.incorrectIds.count q.id := List.count_pos_iff.mpr hmem'
        rw [hcontains, hmem]
        split <;> simp [hmem']
    · intro hl
      rw [if_pos hl]
    · intro hl
      rw [if_neg hl]
      split <;> simp

/-- A concrete two-question session sitting on an unanswered first
question with choice B selected. -/
def sess0 : Session :=
  { questions := [mkQ "e1" Difficulty.easy, mkQ "m1" Difficulty.medium]
    index := 0
    selectedIndex := some 1
    submitted := false
    correctCount := 0
    answeredCount := 0
    incorrectIds := []
    showReview := false
    sessionId := "sess-1" }

/-- Witness for C2: submitting the wrong choice B on the first question
of `sess0` bumps attempted, keeps correct at zero, and records the id
once. -/
theorem submit_spec_witness :
    currentQuestion sess0 = some (mkQ "e1" Difficulty.easy) ∧
    sess0.selectedIndex = some 1 ∧
    sess0.submitted = false ∧
    indexToChoice 1 ≠ (mkQ "e1" Difficulty.easy).correctChoice ∧
    (submit sess0).answeredCount = sess0.answeredCount + 1 ∧
    (submit sess0).correctCount = sess0.correctCount ∧
    (submit sess0).incorrectIds.count (mkQ "e1" Difficulty.easy).id
      = max (sess0.incorrectIds.count (mkQ "e1" Difficulty.easy).id) 1 :=
  ⟨by decide, by decide, by decide, by decide,
   ((submit_spec sess0).2.2.2.2 (mkQ "e1" Difficulty.easy) 1 rfl rfl rfl).2.1,
   (((submit_spec sess0).2.2.2.2 (mkQ "e1" Difficulty.easy) 1 rfl rfl rfl).2.2.2.1
     (by decide)).1,
   (((submit_spec sess0).2.2.2.2 (mkQ "e1" Difficulty.easy) 1 rfl rfl rfl).2.2.2.1
     (by decide)).2.2⟩

/-- C9: advance is a no-op before submission; after submission it steps
to the next question and clears choice/submitted while questions
remain, and enters review on the last question, leaving everything
else untouched. -/
theorem next_spec (s : Session) :
    (s.submitted = false → next s = s) ∧
    (s.submitted = true → s.index < s.questions.length - 1 →
      (next s).index = s.index + 1 ∧ (next s).selectedIndex = none ∧
      (next s).submitted = false ∧ (next s).questions = s.questions ∧
      (next s).correctCount = s.correctCount ∧
      (next s).answeredCount = s.answeredCount ∧
      (next s).incorrectIds = s.incorrectIds ∧
      (next s).showReview = s.showReview) ∧
    (s.submitted = true → ¬ s.index < s.questions.length - 1 →
      (next s).showReview = true ∧ (next s).index = s.index ∧
      (next s).questions = s.questions ∧
      (next s).correctCount = s.correctCount ∧
      (next s).answeredCount = s.answeredCount) := by
  refine ⟨?_, ?_, ?_⟩ <;> intro h
  · simp [next, h]
  · intro hlt
    simp [next, h, hlt]
  · intro hlt
    simp [next, h, hlt]

/-- Witness for C9: advancing the submitted `sess0` (two questions,
index 0) steps to index 1. -/
theorem next_spec_witness :
    ({ sess0 with submitted := true } : Session).submitted = true ∧
    ({ sess0 with submitted := true } : Session).index <
      ({ sess0 with submitted := true } : Session).questions.length - 1 ∧
    (next { sess0 with submitted := true }).index =
      ({ sess0 with submitted := true } : Session).index + 1 ∧
    (next { sess0 with submitted := true }).submitted = false :=
  ⟨by decide, by decide,
   ((next_spec { sess0 with submitted := true }).2.1 (by decide) (by decide)).1,
   ((next_spec { sess0 with submitted := true }).2.1 (by decide) (by decide)).2.2.1⟩

/-- C4: with an empty incorrect set the retry-incorrect control is
disabled, so taking it is a no-op leaving the whole session — question
set, position, counts and identity — unchanged. -/
theorem retry_empty_noop_spec (s : Session) (g : Nat → Nat) (newSess : String)
    (h : s.incorrectIds = []) :
    retryIncorrectClick s g newSess = s ∧
    (retryIncorrectClick s g newSess).questions = s.questions ∧
    (retryIncorrectClick s g newSess).index = s.index ∧
    (retryIncorrectClick s g newSess).correctCount = s.correctCount ∧
    (retryIncorrectClick s g newSess).answeredCount = s.answeredCount ∧
    (retryIncorrectClick s g newSess).sessionId = s.sessionId := by
  have h0 : retryIncorrectClick s g newSess = s := by
    simp [retryIncorrectClick, h]
  simp [h0]

/-- Witness for C4 on `sess0`, whose incorrect set is empty. -/
theorem retry_empty_noop_spec_witness :
    sess0.incorrectIds = [] ∧
    retryIncorrectClick sess0 (fun _ => 0) "other-sess" = sess0 :=
  ⟨rfl, (retry_empty_noop_spec sess0 (fun _ => 0) "other-sess" rfl).1⟩

/-- C8: retry-incorrect with an incorrect set of size `k` (ids without
duplicates, all present among the loaded questions, which carry
distinct ids) yields a session of exactly `k` questions — exactly those
whose id was recorded incorrect — at index 0, cleared choice and
submission, zeroed counts, an emptied incorrect set, review exited and
a fresh session identity differing from the prior one. -/
theorem retry_incorrect_spec (s : Session) (g : Nat → Nat) (newSess : String) (k : Nat)
    (hk : s.incorrectIds.length = k)
    (hnd : s.incorrectIds.Nodup)
    (hqnd : (s.questions.map Question.id).Nodup)
    (hcov : ∀ i ∈ s.incorrectIds, ∃ q ∈ s.questions, q.id = i)
    (hnew : newSess ≠ s.sessionId) :
    (retryIncorrectOnly s g newSess).questions.length = k ∧
    (∀ q ∈ (retryIncorrectOnly s g newSess).questions, q.id ∈ s.incorrectIds) ∧
    (∀ q ∈ s.questions, q.id ∈ s.incorrectIds →
      q ∈ (retryIncorrectOnly s g newSess).questions) ∧
    (retryIncorrectOnly s g newSess).index = 0 ∧
    (retryIncorrectOnly s g newSess).selectedIndex = none ∧
    (retryIncorrectOnly s g newSess).submitted = false ∧
    (retryIncorrectOnly s g newSess).correctCount = 0 ∧
    (retryIncorrectOnly s g newSess).answeredCount = 0 ∧
    (retryIncorrectOnly s g newSess).incorrectIds = [] ∧
    (retryIncorrectOnly s g newSess).showReview = false ∧
    (retryIncorrectOnly s g newSess).sessionId = newSess ∧
    (retryIncorrectOnly s g newSess).sessionId ≠ s.sessionId := by
  set F := s.questions.filter (fun qq => s.incorrectIds.contains qq.id) with hF
  have hquestions : (retryIncorrectOnly s g newSess).questions = shuffle g F := rfl
  have hFnd : (F.map Question.id).Nodup :=
    ((List.filter_sublist s.questions).map Question.id).nodup hqnd
  have hext : ∀ a, a ∈ F.map Question.id ↔ a ∈ s.incorrectIds := by
    intro a
    constructor
    · intro ha
      rcases List.mem_map.mp ha with ⟨qq, hqqF, rfl⟩
      rw [hF, List.mem_filter] at hqqF
      exact (contains_iff_mem _ _).mp hqqF.2
    · intro ha
      rcases hcov a ha with ⟨qq, hqq, hid⟩
      subst hid
      refine List.mem_map.mpr ⟨qq, ?_, rfl⟩
      rw [hF, List.mem_filter]
      exact ⟨hqq, (contains_iff_mem _ _).mpr ha⟩
  have hperm : (F.map Question.id).Perm s.incorrectIds :=
    (List.perm_ext_iff_of_nodup hFnd hnd).mpr hext
  have hlen : F.length = k := by
    have h1 : (F.map Question.id).length = s.incorrectIds.length := hperm.length_eq
    rw [List.length_map] at h1
    omega
  refine ⟨?_, ?_, ?_, rfl, rfl, rfl, rfl, rfl, rfl, rfl, rfl, hnew⟩
  · rw [hquestions, shuffle_length, hlen]
  · intro q hq
    rw [hquestions, (shuffle_perm g F).mem_iff, hF, List.mem_filter] at hq
    exact (contains_iff_mem _ _).mp hq.2
  · intro q hq hid
    rw [hquestions, (shuffle_perm g F).mem_iff, hF, List.mem_filter]
    exact ⟨hq, (contains_iff_mem _ _).mpr hid⟩

/-- A concrete finished session with two recorded misses. -/
def sessRetry : Session :=
  { questions := [mkQ "e1" Difficulty.easy, mkQ "m1" Difficulty.medium,
      mkQ "h1" Difficulty.hard]
    index := 2
    selectedIndex := none
    submitted := true
    correctCount := 1
    answeredCount := 3
    incorrectIds := ["m1", "h1"]
    showReview := true
    sessionId := "sess-2" }

/-- Witness for C8: retrying the two misses of `sessRetry` produces a
fresh two-question session. -/
theorem retry_incorrect_spec_witness :
    sessRetry.incorrectIds.length = 2 ∧
    sessRetry.incorrectIds.Nodup ∧
    (sessRetry.questions.map Question.id).Nodup ∧
    (∀ i ∈ sessRetry.incorrectIds, ∃ q ∈ sessRetry.questions, q.id = i) ∧
    "sess-3" ≠ sessRetry.sessionId ∧
    (retryIncorrectOnly sessRetry (fun _ => 0) "sess-3").questions.length = 2 ∧
    (retryIncorrectOnly sessRetry (fun _ => 0) "sess-3").correctCount = 0 ∧
    (retryIncorrectOnly sessRetry (fun _ => 0) "sess-3").sessionId ≠ sessRetry.sessionId :=
  ⟨by decide, by decide, by decide, by decide, by decide,
   (retry_incorrect_spec sessRetry (fun _ => 0) "sess-3" 2 rfl (by decide) (by decide)
     (by decide) (by decide)).1,
   (retry_incorrect_spec sessRetry (fun _ => 0) "sess-3" 2 rfl (by decide) (by decide)
     (by decide) (by decide)).2.2.2.2.2.2.1,
   (retry_incorrect_spec sessRetry (fun _ => 0) "sess-3" 2 rfl (by decide) (by decide)
     (by decide) (by decide)).2.2.2.2.2.2.2.2.2.2.2⟩

/-- C5: in exam mode the post-submit per-question view shows no
correct/incorrect badge, a correctness-independent uniform style, and
no explanation, while balanced mode reveals the correct choice and the
explanation immediately; on the review screen every missed question
exposes its correct choice and explanation in both modes. -/
theorem feedback_policy_spec :
    (∀ submitted isSelected isCorrectChoice isCorrect : Bool,
      showCorrectBadge Mode.exam submitted isCorrectChoice = false ∧
      showWrongBadge Mode.exam submitted isSelected isCorrect = false) ∧
    (∀ submitted : Bool, explanationShown Mode.exam submitted = false) ∧
    (∀ isSelected isCorrectChoice isCorrect : Bool,
      choiceStyle Mode.exam true isSelected isCorrectChoice isCorrect
        = ChoiceStyle.dimmed80) ∧
    (∀ isCorrectChoice : Bool,
      showCorrectBadge Mode.balanced true isCorrectChoice = isCorrectChoice) ∧
    (∀ isSelected isCorrect : Bool,
      showWrongBadge Mode.balanced true isSelected isCorrect
        = (isSelected && !isCorrect)) ∧
    explanationShown Mode.balanced true = true ∧
    (∀ s : Session, ∀ q ∈ s.questions, q.id ∈ s.incorrectIds →
      reviewLine q ∈ reviewScreen s) := by
  refine ⟨by decide, by decide, by decide, by decide, by decide, rfl, ?_⟩
  intro s q hq hid
  show reviewLine q ∈ (reviewMissed s).map reviewLine
  refine List.mem_map_of_mem reviewLine ?_
  rw [reviewMissed, List.mem_filter]
  exact ⟨hq, (contains_iff_mem _ _).mpr hid⟩

/-- Witness for C5: the missed medium question of `sessRetry` appears
on the review screen with its correct choice and explanation. -/
theorem feedback_policy_spec_witness :
    mkQ "m1" Difficulty.medium ∈ sessRetry.questions ∧
    (mkQ "m1" Difficulty.medium).id ∈ sessRetry.incorrectIds ∧
    reviewLine (mkQ "m1" Difficulty.medium) ∈ reviewScreen sessRetry :=
  ⟨by decide, by decide,
   feedback_policy_spec.2.2.2.2.2.2 sessRetry (mkQ "m1" Difficulty.medium)
     (by decide) (by decide)⟩

end Quiz
